import Mathlib

/-!
Verification of the Linux OS-personality layer (`angr/simos/linux.py`).

The definitions below are a shallow embedding of `SimLinux`: machine words
are `Nat` taken modulo `2 ^ (8 * bytes)` where the code truncates, byte
memory is a function `Nat → Nat`, and the register file is a function
`String → Nat`.  Collaborator behaviour that is not part of the source file
(the string-table object, the loader's extern allocator, the syscall
dispatcher) is modelled from the specification and marked as such.
-/

namespace AngrLinux

/-! ## Syscall ABI configuration and resolution (`configure_project`, `syscall_abi`) -/

/-- The per-architecture syscall ABI lists chosen by
`SimLinux.configure_project` (linux.py lines 117-137). -/
def syscall_abis (name : String) : List String :=
  if name = "X86" then ["i386"]
  else if name = "AMD64" then ["i386", "amd64"]
  else if name.startsWith "ARM" then
    (if name = "ARMHF" then ["arm", "armhf"] else ["arm"])
  else if name = "AARCH64" then ["aarch64"]
  else if name = "MIPS32" then ["mips-o32"]
  else if name = "MIPS64" then ["mips-n32", "mips-n64"]
  else if name = "PPC32" then ["ppc"]
  else if name = "PPC64" then ["ppc64"]
  else []

/-- `SimLinux.syscall_abi` (linux.py lines 141-149): on anything but AMD64 it
returns `None`; on AMD64 it maps the history jumpkind to an ABI name and
raises `AngrSyscallError` for any other jumpkind.  `Except.error` models the
raised exception. -/
def syscall_abi (name jumpkind : String) : Except String (Option String) :=
  if name ≠ "AMD64" then .ok none
  else if jumpkind = "Ijk_Sys_int128" then .ok (some "i386")
  else if jumpkind = "Ijk_Sys_syscall" then .ok (some "amd64")
  else .error ("Unknown syscall jumpkind " ++ jumpkind)

/-- Modelled from the spec: the syscall dispatcher (in `SimUserland`, not part
of the source file under verification) interprets a `None` result of
`syscall_abi` as the architecture's default ABI, the head of the list
configured at `configure_project` time; a `Some` result selects that ABI. -/
def dispatch_abi (name jumpkind : String) : Except String (Option String) :=
  match syscall_abi name jumpkind with
  | .error e => .error e
  | .ok (some a) => .ok (some a)
  | .ok none => .ok (syscall_abis name).head?

theorem head?_mem {α : Type} {l : List α} {a : α} (h : l.head? = some a) : a ∈ l := by
  cases l with
  | nil => cases h
  | cons x xs =>
    simp only [List.head?] at h
    injection h with h2
    subst h2
    exact List.mem_cons_self _ _

/-- C1: for every supported architecture the resolved syscall ABI is drawn
from that architecture's configured list; on AMD64 (the one architecture with
two trap mechanisms in the mapping) any other jumpkind raises a dispatch
fault; every other architecture resolves to its default ABI unconditionally,
independent of the jumpkind. -/
theorem c1_syscall_abi_resolution (name jumpkind : String)
    (hsupp : syscall_abis name ≠ []) :
    (∀ a, dispatch_abi name jumpkind = .ok (some a) → a ∈ syscall_abis name) ∧
    (name = "AMD64" → jumpkind ≠ "Ijk_Sys_int128" → jumpkind ≠ "Ijk_Sys_syscall" →
      dispatch_abi name jumpkind = .error ("Unknown syscall jumpkind " ++ jumpkind)) ∧
    (name ≠ "AMD64" → dispatch_abi name jumpkind = .ok (syscall_abis name).head?) := by
  by_cases hname : name = "AMD64"
  · subst hname
    have hne : ¬("AMD64" ≠ "AMD64") := fun h => h rfl
    refine ⟨?_, ?_, ?_⟩
    · intro a ha
      by_cases h1 : jumpkind = "Ijk_Sys_int128"
      · subst h1
        rw [dispatch_abi, syscall_abi, if_neg hne, if_pos rfl] at ha
        cases ha
        have h3 : syscall_abis "AMD64" = ["i386", "amd64"] := by rfl
        rw [h3]; simp
      · by_cases h2 : jumpkind = "Ijk_Sys_syscall"
        · subst h2
          rw [dispatch_abi, syscall_abi, if_neg hne, if_neg h1, if_pos rfl] at ha
          cases ha
          have h3 : syscall_abis "AMD64" = ["i386", "amd64"] := by rfl
          rw [h3]; simp
        · rw [dispatch_abi, syscall_abi, if_neg hne, if_neg h1, if_neg h2] at ha
          cases ha
    · intro _ h1 h2
      rw [dispatch_abi, syscall_abi, if_neg hne, if_neg h1, if_neg h2]
    · intro h; exact absurd rfl h
  · have habi : syscall_abi name jumpkind = .ok none := by
      simp only [syscall_abi, if_pos hname]
    refine ⟨?_, ?_, ?_⟩
    · intro a ha
      simp only [dispatch_abi, habi] at ha
      injection ha with h
      exact head?_mem h
    · intro h; exact absurd h hname
    · intro _
      simp only [dispatch_abi, habi]

/-- Witness for C1 at a concrete architecture and jumpkind: X86 resolves any
trap unconditionally to its single configured ABI `i386`. -/
theorem c1_syscall_abi_resolution_witness :
    dispatch_abi "X86" "Ijk_Boring" = .ok (some "i386") :=
  (c1_syscall_abi_resolution "X86" "Ijk_Boring" (by decide)).2.2 (by decide)

/-! ## Byte-addressed memory -/

/-- Byte-addressed memory: each address holds one byte value. -/
def Mem : Type := Nat → Nat

/-- Store the `k` low-order bytes of `v` at `addr`, little-endian, as
`state.memory.store` does on a little-endian architecture. -/
def storeBytes (m : Mem) (addr v k : Nat) : Mem :=
  fun a => if addr ≤ a ∧ a < addr + k then v / 256 ^ (a - addr) % 256 else m a

/-- Store a list of bytes at consecutive addresses starting at `addr`. -/
def storeList (m : Mem) (addr : Nat) (l : List Nat) : Mem :=
  fun a => if addr ≤ a ∧ a < addr + l.length then l.getD (a - addr) 0 else m a

/-- Read `k` bytes at `addr` as a little-endian number. -/
def loadBytes (m : Mem) (addr : Nat) : Nat → Nat
  | 0 => 0
  | k + 1 => m addr + 256 * loadBytes m (addr + 1) k

theorem storeBytes_lt {m : Mem} {addr v k a : Nat} (h : a < addr) :
    storeBytes m addr v k a = m a := by
  simp only [storeBytes]
  rw [if_neg (show ¬(addr ≤ a ∧ a < addr + k) by omega)]

theorem storeBytes_ge {m : Mem} {addr v k a : Nat} (h : addr + k ≤ a) :
    storeBytes m addr v k a = m a := by
  simp only [storeBytes]
  rw [if_neg (show ¬(addr ≤ a ∧ a < addr + k) by omega)]

theorem storeBytes_in {m : Mem} {addr v k a : Nat} (h1 : addr ≤ a) (h2 : a < addr + k) :
    storeBytes m addr v k a = v / 256 ^ (a - addr) % 256 := by
  simp only [storeBytes]
  rw [if_pos (show addr ≤ a ∧ a < addr + k from ⟨h1, h2⟩)]

theorem storeList_lt {m : Mem} {addr : Nat} {l : List Nat} {a : Nat} (h : a < addr) :
    storeList m addr l a = m a := by
  simp only [storeList]
  rw [if_neg (show ¬(addr ≤ a ∧ a < addr + l.length) by omega)]

theorem storeList_ge {m : Mem} {addr : Nat} {l : List Nat} {a : Nat}
    (h : addr + l.length ≤ a) : storeList m addr l a = m a := by
  simp only [storeList]
  rw [if_neg (show ¬(addr ≤ a ∧ a < addr + l.length) by omega)]

theorem loadBytes_congr {m1 m2 : Mem} {addr : Nat} (k : Nat)
    (h : ∀ i, i < k → m1 (addr + i) = m2 (addr + i)) :
    loadBytes m1 addr k = loadBytes m2 addr k := by
  induction k generalizing addr with
  | zero => rfl
  | succ n ih =>
    simp only [loadBytes]
    rw [show addr = addr + 0 from rfl] at h
    have h0 := h 0 (Nat.succ_pos n)
    simp only [Nat.add_zero] at h0
    rw [h0, ih (fun i hi => by
      have := h (i + 1) (Nat.succ_lt_succ hi)
      simpa [Nat.add_assoc, Nat.add_comm 1 i] using this)]

theorem mod_mul_pow (x k : Nat) :
    x % 256 + 256 * (x / 256 % 256 ^ k) = x % 256 ^ (k + 1) := by
  rw [pow_succ']
  exact Nat.mod_mul.symm

/-- Reading back the shifted bytes of a `storeBytes` region. -/
theorem loadBytes_storeBytes_off (m : Mem) (addr v kk : Nat) :
    ∀ k j, j + k ≤ kk →
      loadBytes (storeBytes m addr v kk) (addr + j) k = v / 256 ^ j % 256 ^ k := by
  intro k
  induction k with
  | zero => intro j _; simp [loadBytes, Nat.mod_one]
  | succ n ih =>
    intro j hjk
    simp only [loadBytes]
    rw [storeBytes_in (Nat.le_add_right _ _) (by omega)]
    have hrec := ih (j + 1) (by omega)
    rw [show addr + j + 1 = addr + (j + 1) by omega, hrec]
    rw [Nat.add_sub_cancel_left]
    rw [show v / 256 ^ (j + 1) = v / 256 ^ j / 256 by
      rw [Nat.div_div_eq_div_mul, pow_succ]]
    exact mod_mul_pow (v / 256 ^ j) n

/-- Round trip: loading `k` bytes just stored returns the value modulo `256 ^ k`. -/
theorem loadBytes_storeBytes (m : Mem) (addr v k : Nat) :
    loadBytes (storeBytes m addr v k) addr k = v % 256 ^ k := by
  have h := loadBytes_storeBytes_off m addr v k k 0 (by omega)
  simpa using h

/-! ## The string table (`StringTableSpec`) -/

/-- An entry of the string table: either a string (a byte list, laid out in
the string area with a pointer slot referring to it) or a raw pointer-width
value in a pointer slot. -/
inductive TableEntry where
  | str (s : List Nat)
  | ptr (v : Nat)
deriving DecidableEq

/-- Modelled from the spec: `StringTableSpec.add_pointer` (the string-table
collaborator lives in `angr/tablespecs.py`, outside the file under
verification) appends one raw pointer-width entry. -/
def add_pointer (t : List TableEntry) (v : Nat) : List TableEntry :=
  t ++ [TableEntry.ptr v]

/-- Modelled from the spec: `StringTableSpec.add_string` appends one string
entry, a pointer slot paired with the string's bytes. -/
def add_string (t : List TableEntry) (s : List Nat) : List TableEntry :=
  t ++ [TableEntry.str s]

/-- Modelled from the spec: `StringTableSpec.add_null` appends a null
(zero pointer-width) entry. -/
def add_null (t : List TableEntry) : List TableEntry :=
  add_pointer t 0

/-- Modelled from the spec: `StringTableSpec.append_args` appends one string
entry per argument followed by a null terminator entry. -/
def append_args (t : List TableEntry) (args : List (List Nat)) : List TableEntry :=
  add_null (t ++ args.map TableEntry.str)

/-- Modelled from the spec: `StringTableSpec.append_env` appends one string
entry per rendered `key=value` environment pair followed by a null
terminator entry. -/
def append_env (t : List TableEntry) (env : List (List Nat)) : List TableEntry :=
  add_null (t ++ env.map TableEntry.str)

/-- The well-known ELF auxiliary-vector type tag for the 16 random bytes. -/
def AT_RANDOM : Nat := 25

/-- The fixed auxiliary-vector value `b"\xAE\xC0" * 8` from linux.py line 222:
sixteen bytes alternating `0xAE`, `0xC0`. -/
def at_random_value : List Nat :=
  [0xAE, 0xC0, 0xAE, 0xC0, 0xAE, 0xC0, 0xAE, 0xC0,
   0xAE, 0xC0, 0xAE, 0xC0, 0xAE, 0xC0, 0xAE, 0xC0]

/-- The string table built by `SimLinux.state_entry` (linux.py lines 210-231):
arguments, environment, the single `AT_RANDOM` auxiliary entry, and two null
terminator entries. -/
def buildTable (args env : List (List Nat)) : List TableEntry :=
  add_null (add_null (add_string (add_pointer (append_env (append_args [] args) env)
    AT_RANDOM) at_random_value))

/-- Bytes of string storage an entry occupies (strings are null-terminated
when serialized). -/
def entrySize : TableEntry → Nat
  | TableEntry.str s => s.length + 1
  | TableEntry.ptr _ => 0

/-- Total string-storage size of a table. -/
def tableStrLen (t : List TableEntry) : Nat :=
  (t.map entrySize).sum

/-- Modelled from the spec: serialization loop of `StringTableSpec.dump`.
Pointer slots are laid out contiguously from `pa`; string bytes (with a null
terminator) are laid out from `sa`; a string entry's pointer slot receives
the address of its bytes. -/
def dumpEntries (bytes : Nat) : List TableEntry → Mem → Nat → Nat → Mem
  | [], m, _, _ => m
  | TableEntry.ptr v :: rest, m, pa, sa =>
      dumpEntries bytes rest (storeBytes m pa v bytes) (pa + bytes) sa
  | TableEntry.str s :: rest, m, pa, sa =>
      dumpEntries bytes rest (storeList (storeBytes m pa sa bytes) sa (s ++ [0]))
        (pa + bytes) (sa + (s.length + 1))

/-- Modelled from the spec: the 16-byte-aligned start address at which
`StringTableSpec.dump` places the table, just below the given end address. -/
def dumpStart (bytes : Nat) (t : List TableEntry) (endAddr : Nat) : Nat :=
  let total := t.length * bytes + tableStrLen t
  let s0 := endAddr - total
  s0 - s0 % 16

/-- Modelled from the spec: `StringTableSpec.dump` serializes the table below
the given end address (16-byte aligned), pointer slots first and then string
storage, and returns the address of the first pointer slot. -/
def dump (bytes : Nat) (t : List TableEntry) (m : Mem) (endAddr : Nat) : Nat × Mem :=
  (dumpStart bytes t endAddr,
   dumpEntries bytes t m (dumpStart bytes t endAddr)
     (dumpStart bytes t endAddr + t.length * bytes))

/-! ## Entry state construction (`state_entry`, `set_entry_register_values`) -/

/-- A value of the architecture's `entry_register_values` map: a literal
integer, a string indicator, or anything else (which linux.py line 284 only
logs). -/
inductive EntryVal where
  | int (n : Nat)
  | str (s : String)
  | other
deriving DecidableEq

/-- The slice of the archinfo architecture descriptor that `SimLinux` reads. -/
structure Arch where
  name : String
  bytes : Nat
  entry_register_values : List (String × EntryVal)

/-- The slice of the project/loader state that entry-state construction
reads. -/
structure ProjectCtx where
  is_ppc64_abiv1 : Bool
  ppc64_initial_rtoc : Nat
  tls_user_thread_pointer : Nat

/-- The simulated process state as far as `state_entry` touches it. -/
structure EntryState where
  mem : Mem
  sp : Nat
  regs : String → Nat
  warnings : List String
  errors : List String
  posix_argv : Nat
  posix_argc : Nat
  posix_environ : Nat
  posix_auxv : Nat

/-- One iteration of the loop in `SimLinux.set_entry_register_values`
(linux.py lines 260-284). -/
def applyEntryReg (arch : Arch) (ctx : ProjectCtx) (st : EntryState)
    (p : String × EntryVal) : EntryState :=
  match p.2 with
  | EntryVal.int n => { st with regs := Function.update st.regs p.1 (n % 2 ^ (8 * arch.bytes)) }
  | EntryVal.str v =>
      if v = "argc" then { st with regs := Function.update st.regs p.1 st.posix_argc }
      else if v = "argv" then { st with regs := Function.update st.regs p.1 st.posix_argv }
      else if v = "envp" then { st with regs := Function.update st.regs p.1 st.posix_environ }
      else if v = "auxv" then { st with regs := Function.update st.regs p.1 st.posix_auxv }
      else if v = "ld_destructor" then { st with regs := Function.update st.regs p.1 0 }
      else if v = "toc" then
        (if ctx.is_ppc64_abiv1 then
          { st with regs := Function.update st.regs p.1 ctx.ppc64_initial_rtoc }
        else st)
      else if v = "thread_pointer" then
        { st with regs := Function.update st.regs p.1 ctx.tls_user_thread_pointer }
      else { st with warnings := st.warnings ++ [v] }
  | EntryVal.other => { st with errors := st.errors ++ [p.1] }

/-- `SimLinux.set_entry_register_values` (linux.py lines 259-284). -/
def set_entry_register_values (arch : Arch) (ctx : ProjectCtx) (st : EntryState) : EntryState :=
  arch.entry_register_values.foldl (applyEntryReg arch ctx) st

/-- `state.stack_push`: decrement the stack pointer by one pointer width and
store the value there. -/
def stack_push (arch : Arch) (st : EntryState) (v : Nat) : EntryState :=
  { st with sp := st.sp - arch.bytes,
            mem := storeBytes st.mem (st.sp - arch.bytes) v arch.bytes }

/-- The zero-store of linux.py line 234:
`state.memory.store(state.regs.sp - 16, claripy.BVV(0, 8 * 16))`, a 128-bit
(16-byte) zero value written at `sp - 16`. -/
def zeroScratch (sp : Nat) (m : Mem) : Mem :=
  storeBytes m (sp - 16) 0 16

/-- `SimLinux.state_entry` (linux.py lines 193-254) up to the final
`set_entry_register_values` call: build the string table, zero the scratch
bytes, dump the table, derive argv/envp/auxv, store argc one pointer width
below argv, fix the stack pointer, push the PPC32 reserved slots and record
the posix facts. -/
def state_entry_core (arch : Arch) (ctx : ProjectCtx) (filename : List Nat)
    (args? : Option (List (List Nat))) (env : List (List Nat)) (argc? : Option Nat)
    (st : EntryState) : EntryState :=
  let args := args?.getD [filename]
  let argc := (argc?.getD args.length) % 2 ^ (8 * arch.bytes)
  let table := buildTable args env
  let m1 := zeroScratch st.sp st.mem
  let d := dump arch.bytes table m1 (st.sp - 16)
  let argv := d.1
  let envp := argv + (args.length + 1) * arch.bytes
  let auxv := argv + (args.length + env.length + 2) * arch.bytes
  let newsp := argv - arch.bytes
  let m3 := storeBytes d.2 newsp argc arch.bytes
  let st1 : EntryState := { st with mem := m3, sp := newsp }
  let st2 := if arch.name = "PPC32" then
      stack_push arch (stack_push arch (stack_push arch (stack_push arch st1 0) 0) 0) 0
    else st1
  let st3 : EntryState :=
    { st2 with
      posix_argv := argv
      posix_argc := argc
      posix_environ := envp
      posix_auxv := auxv }
  st3

/-- `SimLinux.state_entry` (linux.py lines 193-257): the core construction
followed by entry-register population. -/
def state_entry (arch : Arch) (ctx : ProjectCtx) (filename : List Nat)
    (args? : Option (List (List Nat))) (env : List (List Nat)) (argc? : Option Nat)
    (st : EntryState) : EntryState :=
  set_entry_register_values arch ctx
    (state_entry_core arch ctx filename args? env argc? st)

/-! ## Facts about entry-register population -/

theorem applyEntryReg_preserves (arch : Arch) (ctx : ProjectCtx) (st : EntryState)
    (p : String × EntryVal) :
    (applyEntryReg arch ctx st p).mem = st.mem ∧
    (applyEntryReg arch ctx st p).sp = st.sp ∧
    (applyEntryReg arch ctx st p).posix_argv = st.posix_argv ∧
    (applyEntryReg arch ctx st p).posix_argc = st.posix_argc ∧
    (applyEntryReg arch ctx st p).posix_environ = st.posix_environ ∧
    (applyEntryReg arch ctx st p).posix_auxv = st.posix_auxv := by
  obtain ⟨r, v⟩ := p
  cases v with
  | int n => exact ⟨rfl, rfl, rfl, rfl, rfl, rfl⟩
  | str s =>
    simp only [applyEntryReg]
    split_ifs <;> exact ⟨rfl, rfl, rfl, rfl, rfl, rfl⟩
  | other => exact ⟨rfl, rfl, rfl, rfl, rfl, rfl⟩

theorem foldl_applyEntryReg_preserves (arch : Arch) (ctx : ProjectCtx)
    (l : List (String × EntryVal)) (st : EntryState) :
    (l.foldl (applyEntryReg arch ctx) st).mem = st.mem ∧
    (l.foldl (applyEntryReg arch ctx) st).sp = st.sp ∧
    (l.foldl (applyEntryReg arch ctx) st).posix_argv = st.posix_argv ∧
    (l.foldl (applyEntryReg arch ctx) st).posix_argc = st.posix_argc ∧
    (l.foldl (applyEntryReg arch ctx) st).posix_environ = st.posix_environ ∧
    (l.foldl (applyEntryReg arch ctx) st).posix_auxv = st.posix_auxv := by
  induction l generalizing st with
  | nil => exact ⟨rfl, rfl, rfl, rfl, rfl, rfl⟩
  | cons p rest ih =>
    simp only [List.foldl]
    obtain ⟨h1, h2, h3, h4, h5, h6⟩ := applyEntryReg_preserves arch ctx st p
    obtain ⟨g1, g2, g3, g4, g5, g6⟩ := ih (applyEntryReg arch ctx st p)
    exact ⟨g1.trans h1, g2.trans h2, g3.trans h3, g4.trans h4, g5.trans h5, g6.trans h6⟩

theorem set_entry_register_values_preserves (arch : Arch) (ctx : ProjectCtx)
    (st : EntryState) :
    (set_entry_register_values arch ctx st).mem = st.mem ∧
    (set_entry_register_values arch ctx st).sp = st.sp ∧
    (set_entry_register_values arch ctx st).posix_argv = st.posix_argv ∧
    (set_entry_register_values arch ctx st).posix_argc = st.posix_argc ∧
    (set_entry_register_values arch ctx st).posix_environ = st.posix_environ ∧
    (set_entry_register_values arch ctx st).posix_auxv = st.posix_auxv :=
  foldl_applyEntryReg_preserves arch ctx arch.entry_register_values st

/-- On a non-PPC32 architecture the core of `state_entry` is the scratch
zeroing, the dump, the argc store and the posix bookkeeping. -/
theorem state_entry_core_spec (arch : Arch) (ctx : ProjectCtx) (filename : List Nat)
    (args? : Option (List (List Nat))) (env : List (List Nat)) (argc? : Option Nat)
    (st : EntryState) (hppc : arch.name ≠ "PPC32") :
    state_entry_core arch ctx filename args? env argc? st =
      { st with
        mem := storeBytes
          (dump arch.bytes (buildTable (args?.getD [filename]) env)
            (zeroScratch st.sp st.mem) (st.sp - 16)).2
          ((dump arch.bytes (buildTable (args?.getD [filename]) env)
            (zeroScratch st.sp st.mem) (st.sp - 16)).1 - arch.bytes)
          ((argc?.getD (args?.getD [filename]).length) % 2 ^ (8 * arch.bytes))
          arch.bytes
        sp := (dump arch.bytes (buildTable (args?.getD [filename]) env)
            (zeroScratch st.sp st.mem) (st.sp - 16)).1 - arch.bytes
        posix_argv := (dump arch.bytes (buildTable (args?.getD [filename]) env)
            (zeroScratch st.sp st.mem) (st.sp - 16)).1
        posix_argc := (argc?.getD (args?.getD [filename]).length) % 2 ^ (8 * arch.bytes)
        posix_environ := (dump arch.bytes (buildTable (args?.getD [filename]) env)
            (zeroScratch st.sp st.mem) (st.sp - 16)).1
          + ((args?.getD [filename]).length + 1) * arch.bytes
        posix_auxv := (dump arch.bytes (buildTable (args?.getD [filename]) env)
            (zeroScratch st.sp st.mem) (st.sp - 16)).1
          + ((args?.getD [filename]).length + env.length + 2) * arch.bytes } := by
  simp only [state_entry_core, if_neg hppc]

/-- Modelled from the spec: a concrete 64-bit architecture descriptor used to
instantiate witnesses.  Architecture descriptors are external input (they
come from archinfo); this one declares an argument-count register and an
argument-vector register in its entry-register map, as the spec's
entry-register contract describes. -/
def wordArch64 : Arch :=
  { name := "TEST64"
    bytes := 8
    entry_register_values := [("r3", EntryVal.str "argc"), ("r4", EntryVal.str "argv")] }

/-- A concrete project context for witnesses. -/
def ctx0 : ProjectCtx :=
  { is_ppc64_abiv1 := false, ppc64_initial_rtoc := 0, tls_user_thread_pointer := 0 }

/-- A concrete start state for witnesses: stack pointer at 4096, every memory
byte holding 255, every register 0. -/
def st0 : EntryState :=
  { mem := fun _ => 255
    sp := 4096
    regs := fun _ => 0
    warnings := []
    errors := []
    posix_argv := 0
    posix_argc := 0
    posix_environ := 0
    posix_auxv := 0 }

/-- C5: for every (arguments, environment) input, the string table built by
`state_entry` is the argument entries with their null terminator, the
environment entries with their null terminator, then exactly one
auxiliary-vector entry — the `AT_RANDOM` type tag with a 16-byte value — and
finally exactly two null (zero pointer-width) entries. -/
theorem c5_auxv_structure (args env : List (List Nat)) :
    buildTable args env =
      args.map TableEntry.str ++ [TableEntry.ptr 0]
        ++ (env.map TableEntry.str ++ [TableEntry.ptr 0])
        ++ [TableEntry.ptr AT_RANDOM, TableEntry.str at_random_value]
        ++ [TableEntry.ptr 0, TableEntry.ptr 0]
      ∧ at_random_value.length = 16 := by
  constructor
  · simp [buildTable, add_null, add_pointer, add_string, append_args, append_env]
  · rfl

/-- C4: after the dump, envp is argv plus (argument count + 1) pointer widths,
auxv is argv plus (argument count + environment count + 2) pointer widths,
the argument count is stored exactly one pointer width below argv, and the
stack pointer is set to that address (PPC32 additionally pushes four reserved
slots afterwards, linux.py lines 244-248, outside this claim's scope). -/
theorem c4_stack_layout (arch : Arch) (ctx : ProjectCtx) (filename : List Nat)
    (args? : Option (List (List Nat))) (env : List (List Nat)) (argc? : Option Nat)
    (st : EntryState) (hppc : arch.name ≠ "PPC32") :
    (state_entry arch ctx filename args? env argc? st).posix_environ
      = (state_entry arch ctx filename args? env argc? st).posix_argv
        + ((args?.getD [filename]).length + 1) * arch.bytes ∧
    (state_entry arch ctx filename args? env argc? st).posix_auxv
      = (state_entry arch ctx filename args? env argc? st).posix_argv
        + ((args?.getD [filename]).length + env.length + 2) * arch.bytes ∧
    loadBytes (state_entry arch ctx filename args? env argc? st).mem
        ((state_entry arch ctx filename args? env argc? st).posix_argv - arch.bytes)
        arch.bytes
      = (state_entry arch ctx filename args? env argc? st).posix_argc ∧
    (state_entry arch ctx filename args? env argc? st).sp
      = (state_entry arch ctx filename args? env argc? st).posix_argv - arch.bytes := by
  obtain ⟨hm, hsp, hargv, hargc, henv, haux⟩ :=
    set_entry_register_values_preserves arch ctx
      (state_entry_core arch ctx filename args? env argc? st)
  have hcore := state_entry_core_spec arch ctx filename args? env argc? st hppc
  simp only [state_entry, hm, hsp, hargv, hargc, henv, haux]
  rw [hcore]
  refine ⟨rfl, rfl, ?_, rfl⟩
  rw [loadBytes_storeBytes]
  rw [show (256 : Nat) ^ arch.bytes = 2 ^ (8 * arch.bytes) by
    rw [show (256 : Nat) = 2 ^ 8 from rfl, ← pow_mul]]
  exact Nat.mod_mod_of_dvd _ dvd_rfl

/-- Witness for C4 on a concrete 64-bit call. -/
theorem c4_stack_layout_witness :
    (state_entry wordArch64 ctx0 [0x70] (some [[0x70, 0x71]]) [[0x65]] none st0).posix_environ
      = (state_entry wordArch64 ctx0 [0x70] (some [[0x70, 0x71]]) [[0x65]] none st0).posix_argv
        + 16 ∧
    (state_entry wordArch64 ctx0 [0x70] (some [[0x70, 0x71]]) [[0x65]] none st0).posix_auxv
      = (state_entry wordArch64 ctx0 [0x70] (some [[0x70, 0x71]]) [[0x65]] none st0).posix_argv
        + 32 ∧
    loadBytes (state_entry wordArch64 ctx0 [0x70] (some [[0x70, 0x71]]) [[0x65]] none st0).mem
        ((state_entry wordArch64 ctx0 [0x70] (some [[0x70, 0x71]]) [[0x65]] none st0).posix_argv - 8) 8
      = (state_entry wordArch64 ctx0 [0x70] (some [[0x70, 0x71]]) [[0x65]] none st0).posix_argc ∧
    (state_entry wordArch64 ctx0 [0x70] (some [[0x70, 0x71]]) [[0x65]] none st0).sp
      = (state_entry wordArch64 ctx0 [0x70] (some [[0x70, 0x71]]) [[0x65]] none st0).posix_argv - 8 :=
  c4_stack_layout wordArch64 ctx0 [0x70] (some [[0x70, 0x71]]) [[0x65]] none st0 (by decide)

/-- Addresses below both the pointer area and the string area are untouched
by the serialization loop. -/
theorem dumpEntries_below (bytes : Nat) (l : List TableEntry) :
    ∀ (m : Mem) (pa sa a : Nat), a < pa → a < sa → dumpEntries bytes l m pa sa a = m a := by
  induction l with
  | nil => intro m pa sa a _ _; rfl
  | cons e rest ih =>
    intro m pa sa a hpa hsa
    cases e with
    | ptr v =>
      simp only [dumpEntries]
      rw [ih _ _ _ _ (by omega) hsa]
      exact storeBytes_lt hpa
    | str s =>
      simp only [dumpEntries]
      rw [ih _ _ _ _ (by omega) (by omega)]
      rw [storeList_lt hsa]
      exact storeBytes_lt hpa

/-- When the first table entry is a string, the machine word serialized at
the returned start address is the (truncated) base address of the string
storage — the pointer to the first argument's bytes. -/
theorem dump_head_string (bytes : Nat) (arg0 : List Nat) (rest : List TableEntry)
    (m : Mem) (endAddr : Nat) :
    loadBytes (dump bytes (TableEntry.str arg0 :: rest) m endAddr).2
        (dump bytes (TableEntry.str arg0 :: rest) m endAddr).1 bytes
      = ((dump bytes (TableEntry.str arg0 :: rest) m endAddr).1
          + (rest.length + 1) * bytes) % 256 ^ bytes := by
  have h1 : (dump bytes (TableEntry.str arg0 :: rest) m endAddr).1
      = dumpStart bytes (TableEntry.str arg0 :: rest) endAddr := rfl
  have h2 : (dump bytes (TableEntry.str arg0 :: rest) m endAddr).2
      = dumpEntries bytes (TableEntry.str arg0 :: rest) m
          (dumpStart bytes (TableEntry.str arg0 :: rest) endAddr)
          (dumpStart bytes (TableEntry.str arg0 :: rest) endAddr
            + (TableEntry.str arg0 :: rest).length * bytes) := rfl
  rw [h1, h2]
  set S := dumpStart bytes (TableEntry.str arg0 :: rest) endAddr with hS
  simp only [dumpEntries, List.length_cons]
  have hble : bytes ≤ (rest.length + 1) * bytes :=
    Nat.le_mul_of_pos_left bytes (Nat.succ_pos rest.length)
  have hstep : ∀ i, i < bytes →
      dumpEntries bytes rest
          (storeList (storeBytes m S (S + (rest.length + 1) * bytes) bytes)
            (S + (rest.length + 1) * bytes) (arg0 ++ [0]))
          (S + bytes) (S + (rest.length + 1) * bytes + (arg0.length + 1)) (S + i)
        = storeBytes m S (S + (rest.length + 1) * bytes) bytes (S + i) := by
    intro i hi
    rw [dumpEntries_below _ _ _ _ _ _ (by omega) (by omega), storeList_lt (by omega)]
  rw [loadBytes_congr bytes hstep]
  exact loadBytes_storeBytes m S (S + (rest.length + 1) * bytes) bytes

/-- C2 counterexample: the claim says a 128-byte scratch region immediately
below the stack pointer is zeroed before the dump, but linux.py line 234
stores `claripy.BVV(0, 8 * 16)` — a 128-bit, i.e. 16-byte, zero — so at
`sp = 4096` over all-255 memory the byte at `sp - 17` is not zeroed. -/
theorem c2_counterexample :
    ¬ (∀ a, 4096 - 128 ≤ a → a < 4096 → zeroScratch 4096 (fun _ => 255) a = 0) := by
  intro h
  have h17 := h 3979 (by norm_num) (by norm_num)
  rw [zeroScratch, storeBytes_lt (by norm_num)] at h17
  norm_num at h17

/-- C2 (amended): during entry-state construction a 16-byte (128-bit) scratch
region immediately below the current stack pointer is zeroed — bytes outside
it are untouched — the string table is then dumped against that zeroed
region, and the dump's return value, recorded as argv, is the address of the
first pointer slot: the machine word there is the (truncated) address of the
string storage that holds the first argument's bytes. -/
theorem c2_amended (arch : Arch) (ctx : ProjectCtx) (filename : List Nat)
    (arg0 : List Nat) (args : List (List Nat)) (env : List (List Nat))
    (argc? : Option Nat) (st : EntryState) (hsp : 16 ≤ st.sp) :
    (∀ a, st.sp - 16 ≤ a → a < st.sp → zeroScratch st.sp st.mem a = 0) ∧
    (∀ a, a < st.sp - 16 → zeroScratch st.sp st.mem a = st.mem a) ∧
    (∀ a, st.sp ≤ a → zeroScratch st.sp st.mem a = st.mem a) ∧
    (state_entry arch ctx filename (some (arg0 :: args)) env argc? st).posix_argv
      = (dump arch.bytes (buildTable (arg0 :: args) env)
          (zeroScratch st.sp st.mem) (st.sp - 16)).1 ∧
    loadBytes
        (dump arch.bytes (buildTable (arg0 :: args) env)
          (zeroScratch st.sp st.mem) (st.sp - 16)).2
        (dump arch.bytes (buildTable (arg0 :: args) env)
          (zeroScratch st.sp st.mem) (st.sp - 16)).1
        arch.bytes
      = ((dump arch.bytes (buildTable (arg0 :: args) env)
            (zeroScratch st.sp st.mem) (st.sp - 16)).1
          + (buildTable (arg0 :: args) env).length * arch.bytes) % 256 ^ arch.bytes := by
  refine ⟨?_, ?_, ?_, ?_, ?_⟩
  · intro a h1 h2
    rw [zeroScratch, storeBytes_in h1 (by omega)]
    simp [Nat.zero_div]
  · intro a h1
    exact storeBytes_lt h1
  · intro a h1
    exact storeBytes_ge (by omega)
  · obtain ⟨-, -, hargv, -, -, -⟩ :=
      set_entry_register_values_preserves arch ctx
        (state_entry_core arch ctx filename (some (arg0 :: args)) env argc? st)
    simp only [state_entry, hargv]
    simp only [state_entry_core, Option.getD_some]
  · have hbuild : buildTable (arg0 :: args) env
        = TableEntry.str arg0 :: (args.map TableEntry.str ++ [TableEntry.ptr 0]
            ++ (env.map TableEntry.str ++ [TableEntry.ptr 0])
            ++ [TableEntry.ptr AT_RANDOM, TableEntry.str at_random_value]
            ++ [TableEntry.ptr 0, TableEntry.ptr 0]) := by
      simp [buildTable, add_null, add_pointer, add_string, append_args, append_env]
    rw [hbuild]
    simp only [List.length_cons]
    exact dump_head_string arch.bytes arg0 _ (zeroScratch st.sp st.mem) (st.sp - 16)

/-- Witness for C2 (amended) at the concrete start state. -/
theorem c2_amended_witness :
    (∀ a, st0.sp - 16 ≤ a → a < st0.sp → zeroScratch st0.sp st0.mem a = 0) ∧
    (∀ a, a < st0.sp - 16 → zeroScratch st0.sp st0.mem a = st0.mem a) ∧
    (∀ a, st0.sp ≤ a → zeroScratch st0.sp st0.mem a = st0.mem a) ∧
    (state_entry wordArch64 ctx0 [0x70] (some [[0x70, 0x71]]) [] none st0).posix_argv
      = (dump wordArch64.bytes (buildTable [[0x70, 0x71]] [])
          (zeroScratch st0.sp st0.mem) (st0.sp - 16)).1 ∧
    loadBytes
        (dump wordArch64.bytes (buildTable [[0x70, 0x71]] [])
          (zeroScratch st0.sp st0.mem) (st0.sp - 16)).2
        (dump wordArch64.bytes (buildTable [[0x70, 0x71]] [])
          (zeroScratch st0.sp st0.mem) (st0.sp - 16)).1
        wordArch64.bytes
      = ((dump wordArch64.bytes (buildTable [[0x70, 0x71]] [])
            (zeroScratch st0.sp st0.mem) (st0.sp - 16)).1
          + (buildTable [[0x70, 0x71]] []).length * wordArch64.bytes) % 256 ^ wordArch64.bytes :=
  c2_amended wordArch64 ctx0 [0x70] [0x70, 0x71] [] [] none st0 (by decide)

/-- C3: calling `state_entry` with an explicit argc override of 3 while
passing a single argument string stores the literal 3 as the recorded
argument count, into the stack slot one pointer width below argv, and into
the argc entry register — both locations hold the same value 3, which
differs from the true argument count 1. -/
theorem c3_argc_override (ctx : ProjectCtx) (st : EntryState) (filename prog : List Nat) :
    (state_entry wordArch64 ctx filename (some [prog]) [] (some 3) st).posix_argc = 3 ∧
    loadBytes (state_entry wordArch64 ctx filename (some [prog]) [] (some 3) st).mem
        ((state_entry wordArch64 ctx filename (some [prog]) [] (some 3) st).posix_argv
          - wordArch64.bytes) wordArch64.bytes = 3 ∧
    (state_entry wordArch64 ctx filename (some [prog]) [] (some 3) st).regs "r3" = 3 ∧
    ((some [prog] : Option (List (List Nat))).getD [filename]).length = 1 ∧
    (3 : Nat) ≠ 1 := by
  have hcore := state_entry_core_spec wordArch64 ctx filename (some [prog]) [] (some 3) st
    (by decide)
  have hargc3 : ((some (3 : Nat)).getD
        ((some [prog] : Option (List (List Nat))).getD [filename]).length)
      % 2 ^ (8 * wordArch64.bytes) = 3 := by
    norm_num [wordArch64]
  obtain ⟨hm, hsp, hargv, hargc, henv, haux⟩ :=
    set_entry_register_values_preserves wordArch64 ctx
      (state_entry_core wordArch64 ctx filename (some [prog]) [] (some 3) st)
  refine ⟨?_, ?_, ?_, rfl, by decide⟩
  · simp only [state_entry, hargc]
    rw [hcore]
    exact hargc3
  · simp only [state_entry, hm, hargv]
    rw [hcore]
    rw [loadBytes_storeBytes, hargc3]
    norm_num [wordArch64]
  · have e1 : ∀ s : EntryState, applyEntryReg wordArch64 ctx s ("r3", EntryVal.str "argc")
        = { s with regs := Function.update s.regs "r3" s.posix_argc } := fun s => rfl
    have e2 : ∀ s : EntryState, applyEntryReg wordArch64 ctx s ("r4", EntryVal.str "argv")
        = { s with regs := Function.update s.regs "r4" s.posix_argv } := fun s => rfl
    have hlist : wordArch64.entry_register_values
        = [("r3", EntryVal.str "argc"), ("r4", EntryVal.str "argv")] := rfl
    simp only [state_entry, set_entry_register_values, hlist, List.foldl, e1, e2]
    rw [Function.update_noteq (by decide : ("r3" : String) ≠ "r4"),
      Function.update_same]
    rw [hcore]
    exact hargc3

/-- The string indicators `SimLinux.set_entry_register_values` recognizes
(linux.py lines 264-280). -/
def knownIndicators : List String :=
  ["argc", "argv", "envp", "auxv", "ld_destructor", "toc", "thread_pointer"]

/-- C8: an unrecognized entry-register indicator string does not fault:
its only effect is a logged warning, the register keeps its previous (reset)
value, processing of the remaining map entries continues unchanged, and each
known indicator still populates its register correctly. -/
theorem c8_unknown_indicator (arch : Arch) (ctx : ProjectCtx) (st : EntryState)
    (r r2 s : String) (rest : List (String × EntryVal)) (h : s ∉ knownIndicators) :
    applyEntryReg arch ctx st (r, EntryVal.str s)
      = { st with warnings := st.warnings ++ [s] } ∧
    (applyEntryReg arch ctx st (r, EntryVal.str s)).regs = st.regs ∧
    ((r, EntryVal.str s) :: rest).foldl (applyEntryReg arch ctx) st
      = rest.foldl (applyEntryReg arch ctx) { st with warnings := st.warnings ++ [s] } ∧
    (applyEntryReg arch ctx st (r2, EntryVal.str "argc")).regs r2 = st.posix_argc ∧
    (applyEntryReg arch ctx st (r2, EntryVal.str "argv")).regs r2 = st.posix_argv ∧
    (applyEntryReg arch ctx st (r2, EntryVal.str "envp")).regs r2 = st.posix_environ ∧
    (applyEntryReg arch ctx st (r2, EntryVal.str "auxv")).regs r2 = st.posix_auxv ∧
    (applyEntryReg arch ctx st (r2, EntryVal.str "ld_destructor")).regs r2 = 0 := by
  simp only [knownIndicators, List.mem_cons, List.not_mem_nil, or_false, not_or] at h
  obtain ⟨h1, h2, h3, h4, h5, h6, h7⟩ := h
  have hwarn : applyEntryReg arch ctx st (r, EntryVal.str s)
      = { st with warnings := st.warnings ++ [s] } := by
    simp only [applyEntryReg]
    rw [if_neg h1, if_neg h2, if_neg h3, if_neg h4, if_neg h5, if_neg h6, if_neg h7]
  refine ⟨hwarn, by rw [hwarn], ?_, ?_, ?_, ?_, ?_, ?_⟩
  · simp only [List.foldl, hwarn]
  · rw [show applyEntryReg arch ctx st (r2, EntryVal.str "argc")
        = { st with regs := Function.update st.regs r2 st.posix_argc } from rfl]
    exact Function.update_same r2 _ _
  · rw [show applyEntryReg arch ctx st (r2, EntryVal.str "argv")
        = { st with regs := Function.update st.regs r2 st.posix_argv } from rfl]
    exact Function.update_same r2 _ _
  · rw [show applyEntryReg arch ctx st (r2, EntryVal.str "envp")
        = { st with regs := Function.update st.regs r2 st.posix_environ } from rfl]
    exact Function.update_same r2 _ _
  · rw [show applyEntryReg arch ctx st (r2, EntryVal.str "auxv")
        = { st with regs := Function.update st.regs r2 st.posix_auxv } from rfl]
    exact Function.update_same r2 _ _
  · rw [show applyEntryReg arch ctx st (r2, EntryVal.str "ld_destructor")
        = { st with regs := Function.update st.regs r2 0 } from rfl]
    exact Function.update_same r2 _ _

/-- Witness for C8 at the concrete indicator string `bogus`. -/
theorem c8_unknown_indicator_witness :
    applyEntryReg wordArch64 ctx0 st0 ("r9", EntryVal.str "bogus")
      = { st0 with warnings := st0.warnings ++ ["bogus"] } ∧
    (applyEntryReg wordArch64 ctx0 st0 ("r9", EntryVal.str "bogus")).regs = st0.regs ∧
    (("r9", EntryVal.str "bogus") :: [("r3", EntryVal.str "argc")]).foldl
        (applyEntryReg wordArch64 ctx0) st0
      = [("r3", EntryVal.str "argc")].foldl (applyEntryReg wordArch64 ctx0)
          { st0 with warnings := st0.warnings ++ ["bogus"] } ∧
    (applyEntryReg wordArch64 ctx0 st0 ("r7", EntryVal.str "argc")).regs "r7"
      = st0.posix_argc ∧
    (applyEntryReg wordArch64 ctx0 st0 ("r7", EntryVal.str "argv")).regs "r7"
      = st0.posix_argv ∧
    (applyEntryReg wordArch64 ctx0 st0 ("r7", EntryVal.str "envp")).regs "r7"
      = st0.posix_environ ∧
    (applyEntryReg wordArch64 ctx0 st0 ("r7", EntryVal.str "auxv")).regs "r7"
      = st0.posix_auxv ∧
    (applyEntryReg wordArch64 ctx0 st0 ("r7", EntryVal.str "ld_destructor")).regs "r7" = 0 :=
  c8_unknown_indicator wordArch64 ctx0 st0 "r9" "r7" "bogus"
    [("r3", EntryVal.str "argc")] (by decide)

/-! ## TLS thread-pointer setup in `state_blank` -/

/-- The architecture classes `state_blank` dispatches on via `isinstance`. -/
inductive ArchClass where
  | X86 | AMD64 | ARM | AARCH64 | MIPS32 | MIPS64 | PPC32 | PPC64 | other
deriving DecidableEq

/-- The TLS thread-pointer initialization of `SimLinux.state_blank`
(linux.py lines 156-168): when a TLS object exists, one register of the
fresh register file receives the user thread pointer — shifted right by 16
bits on 32-bit x86 — and architectures without a branch are untouched. -/
def state_blank_tls (k : ArchClass) (tls : Option Nat) (regs : String → Nat) :
    String → Nat :=
  match tls with
  | none => regs
  | some utp =>
    match k with
    | ArchClass.AMD64 => Function.update regs "fs" utp
    | ArchClass.X86 => Function.update regs "gs" (utp >>> 16)
    | ArchClass.MIPS32 => Function.update regs "ulr" utp
    | ArchClass.MIPS64 => Function.update regs "ulr" utp
    | ArchClass.PPC32 => Function.update regs "r2" utp
    | ArchClass.PPC64 => Function.update regs "r13" utp
    | ArchClass.AARCH64 => Function.update regs "tpidr_el0" utp
    | _ => regs

/-- C9: with a TLS object present, `state_blank` sets fs on AMD64, ulr on
MIPS32/MIPS64, r2 on PPC32, r13 on PPC64 and tpidr_el0 on AArch64 to the
user thread pointer verbatim, while 32-bit x86's gs receives the pointer
shifted right by 16 bits (a selector-style value, the pointer divided by
2^16). -/
theorem c9_tls_thread_pointer (utp : Nat) (regs : String → Nat) :
    state_blank_tls ArchClass.AMD64 (some utp) regs "fs" = utp ∧
    state_blank_tls ArchClass.MIPS32 (some utp) regs "ulr" = utp ∧
    state_blank_tls ArchClass.MIPS64 (some utp) regs "ulr" = utp ∧
    state_blank_tls ArchClass.PPC32 (some utp) regs "r2" = utp ∧
    state_blank_tls ArchClass.PPC64 (some utp) regs "r13" = utp ∧
    state_blank_tls ArchClass.AARCH64 (some utp) regs "tpidr_el0" = utp ∧
    state_blank_tls ArchClass.X86 (some utp) regs "gs" = utp >>> 16 ∧
    utp >>> 16 = utp / 2 ^ 16 := by
  simp only [state_blank_tls]
  exact ⟨Function.update_same _ _ _, Function.update_same _ _ _, Function.update_same _ _ _,
    Function.update_same _ _ _, Function.update_same _ _ _, Function.update_same _ _ _,
    Function.update_same _ _ _, Nat.shiftRight_eq_div_pow utp 16⟩

/-! ## IFunc relocation resolution (`configure_project`, linux.py lines 88-114) -/

/-- Modelled from the spec: the base of the reserved extern region from which
the loader's monotonic allocator carves synthetic addresses. -/
def externBase : Nat := 0x700000000000

/-- The fields of a CLE relocation record that the ifunc pass inspects.
`elftype = none` models a resolution object without an `elftype` attribute
(the `AttributeError` branch of linux.py lines 96-100). -/
structure Reloc where
  has_symbol : Bool
  has_resolvedby : Bool
  elftype : Option String
  gotaddr : Nat
  symbol_name : String

/-- Modelled from the spec: the loader slice the ifunc pass manipulates —
word-granular loader memory (`pack_word`/`unpack_word` of the loader
collaborator), the set of hooked addresses, and the monotonic extern
allocation counter. -/
structure IfuncProj where
  mem : Nat → Nat
  hooked : List Nat
  externCounter : Nat

/-- The filter of linux.py lines 94-100: the relocation names a symbol, is
resolved, and its resolution is flagged `STT_GNU_IFUNC`. -/
def ifunc_qualifies (r : Reloc) : Bool :=
  r.has_symbol && r.has_resolvedby && (r.elftype == some "STT_GNU_IFUNC")

/-- The body of the ifunc loop (linux.py lines 101-114): read the GOT slot;
if its value is already hooked, skip; otherwise allocate a fresh extern
address, hook it, and rewrite the slot to it. -/
def ifunc_step (s : IfuncProj) (r : Reloc) : IfuncProj :=
  if ifunc_qualifies r then
    (if s.mem r.gotaddr ∈ s.hooked then s
     else
       { mem := Function.update s.mem r.gotaddr (externBase + s.externCounter)
         hooked := (externBase + s.externCounter) :: s.hooked
         externCounter := s.externCounter + 1 })
  else s

/-- The ifunc resolution pass over all relocation records of the loaded
object set. -/
def ifunc_pass (relocs : List Reloc) (s : IfuncProj) : IfuncProj :=
  relocs.foldl ifunc_step s

theorem ifunc_step_slot_hooked (s : IfuncProj) (r : Reloc) (a : Nat)
    (h : s.mem a ∈ s.hooked) :
    (ifunc_step s r).mem a ∈ (ifunc_step s r).hooked := by
  unfold ifunc_step
  by_cases hq : ifunc_qualifies r
  · rw [if_pos hq]
    by_cases hmem : s.mem r.gotaddr ∈ s.hooked
    · rw [if_pos hmem]; exact h
    · rw [if_neg hmem]
      have hne : r.gotaddr ≠ a := fun he => hmem (he ▸ h)
      simp only
      rw [Function.update_noteq (Ne.symm hne)]
      exact List.mem_cons_of_mem _ h
  · rw [if_neg hq]; exact h

theorem ifunc_step_self_hooked (s : IfuncProj) (r : Reloc)
    (hq : ifunc_qualifies r = true) :
    (ifunc_step s r).mem r.gotaddr ∈ (ifunc_step s r).hooked := by
  unfold ifunc_step
  rw [if_pos hq]
  by_cases hmem : s.mem r.gotaddr ∈ s.hooked
  · rw [if_pos hmem]; exact hmem
  · rw [if_neg hmem]
    simp only
    rw [Function.update_same]
    exact List.mem_cons_self _ _

theorem ifunc_pass_slot_hooked (relocs : List Reloc) (s : IfuncProj) (a : Nat)
    (h : s.mem a ∈ s.hooked) :
    (ifunc_pass relocs s).mem a ∈ (ifunc_pass relocs s).hooked := by
  induction relocs generalizing s with
  | nil => exact h
  | cons r rest ih =>
    exact ih (ifunc_step s r) (ifunc_step_slot_hooked s r a h)

theorem ifunc_pass_establishes (relocs : List Reloc) (s : IfuncProj) :
    ∀ r ∈ relocs, ifunc_qualifies r = true →
      (ifunc_pass relocs s).mem r.gotaddr ∈ (ifunc_pass relocs s).hooked := by
  induction relocs generalizing s with
  | nil => intro r hr; cases hr
  | cons r0 rest ih =>
    intro r hr hq
    cases hr with
    | head =>
      exact ifunc_pass_slot_hooked rest (ifunc_step s r0) r0.gotaddr
        (ifunc_step_self_hooked s r0 hq)
    | tail _ hr' => exact ih (ifunc_step s r0) r hr' hq

theorem ifunc_step_skip (s : IfuncProj) (r : Reloc)
    (h : ifunc_qualifies r = true → s.mem r.gotaddr ∈ s.hooked) :
    ifunc_step s r = s := by
  unfold ifunc_step
  by_cases hq : ifunc_qualifies r
  · rw [if_pos hq, if_pos (h hq)]
  · rw [if_neg hq]

theorem ifunc_pass_fixed (relocs : List Reloc) (s : IfuncProj)
    (h : ∀ r ∈ relocs, ifunc_qualifies r = true → s.mem r.gotaddr ∈ s.hooked) :
    ifunc_pass relocs s = s := by
  induction relocs with
  | nil => rfl
  | cons r0 rest ih =>
    show ifunc_pass rest (ifunc_step s r0) = s
    rw [ifunc_step_skip s r0 (h r0 (List.mem_cons_self _ _))]
    exact ih fun r hr hq => h r (List.mem_cons_of_mem _ hr) hq

/-- C6: the ifunc relocation-resolution pass is idempotent — after one pass,
every qualifying GOT slot's value is a hook target, so a second pass over the
same relocation records installs zero additional hooks, rewrites zero slots
and allocates nothing: it is the identity on the resulting project state. -/
theorem c6_ifunc_idempotent (relocs : List Reloc) (s : IfuncProj) :
    ifunc_pass relocs (ifunc_pass relocs s) = ifunc_pass relocs s ∧
    (ifunc_pass relocs (ifunc_pass relocs s)).hooked = (ifunc_pass relocs s).hooked ∧
    (ifunc_pass relocs (ifunc_pass relocs s)).mem = (ifunc_pass relocs s).mem ∧
    (ifunc_pass relocs (ifunc_pass relocs s)).externCounter
      = (ifunc_pass relocs s).externCounter := by
  have h := ifunc_pass_fixed relocs (ifunc_pass relocs s)
    (fun r hr hq => ifunc_pass_establishes relocs s r hr hq)
  exact ⟨h, congrArg IfuncProj.hooked h, congrArg IfuncProj.mem h,
    congrArg IfuncProj.externCounter h⟩

/-! ## `prepare_function_symbol` (linux.py lines 290-310) -/

/-- The loader slice `prepare_function_symbol` manipulates: word-granular
loader memory keyed by mapped virtual address, the cache of per-symbol
pseudo addresses, and the monotonic extern allocation counter. -/
structure LoaderState where
  mem : Nat → Nat
  pseudo_addrs : List (String × Nat)
  externCounter : Nat

/-- Modelled from the spec: `extern_object.allocate(size)` carves the next
monotonic extern address and advances the allocator by the requested size. -/
def allocate (s : LoaderState) (size : Nat) : Nat × LoaderState :=
  (externBase + s.externCounter,
   { s with externCounter := s.externCounter + max size 1 })

/-- Lookup of a symbol's cached pseudo address. -/
def find_pseudo : List (String × Nat) → String → Option Nat
  | [], _ => none
  | (n, a) :: rest, name => if n = name then some a else find_pseudo rest name

/-- Modelled from the spec: `extern_object.get_pseudo_addr(name)` returns the
extern address already associated with the symbol, allocating a fresh one on
first use. -/
def get_pseudo_addr (s : LoaderState) (name : String) : Nat × LoaderState :=
  match find_pseudo s.pseudo_addrs name with
  | some a => (a, s)
  | none =>
    let r := allocate s 1
    (r.1, { r.2 with pseudo_addrs := (name, r.1) :: r.2.pseudo_addrs })

/-- Modelled from the spec: a `pack_word` through the extern object's
relative-address view; `AT.from_mva(x, extern).to_rva()` is `x - externBase`,
and the extern object's memory at that offset is the loader memory at
`externBase + offset`. -/
def pack_word_extern (s : LoaderState) (rva v : Nat) : LoaderState :=
  { s with mem := Function.update s.mem (externBase + rva) v }

/-- `SimLinux.prepare_function_symbol` (linux.py lines 290-310): on the
PPC64 ABIv1 main object with a fixed address it dereferences the address; on
ABIv1 without one it allocates a pseudo function address and a pseudo TOC
entry and packs the function address into the TOC entry; otherwise it
returns the (possibly freshly allocated pseudo) address twice. -/
def prepare_function_symbol (is_ppc64_abiv1 : Bool) (symbol_name : String)
    (basic_addr : Option Nat) (s : LoaderState) : (Nat × Nat) × LoaderState :=
  match is_ppc64_abiv1, basic_addr with
  | true, some addr => ((s.mem addr, addr), s)
  | true, none =>
      let r1 := get_pseudo_addr s symbol_name
      let r2 := allocate r1.2 0x18
      let s3 := pack_word_extern r2.2 (r2.1 - externBase) r1.1
      ((r1.1, r2.1), s3)
  | false, some addr => ((addr, addr), s)
  | false, none =>
      let r := get_pseudo_addr s symbol_name
      ((r.1, r.1), r.2)

/-- Well-formedness of the allocator: every cached pseudo address was carved
below the current allocation frontier. -/
def loader_wf (s : LoaderState) : Prop :=
  ∀ p ∈ s.pseudo_addrs, p.2 < externBase + s.externCounter

theorem find_pseudo_lt (l : List (String × Nat)) (name : String) (a c : Nat)
    (hwf : ∀ p ∈ l, p.2 < c) (h : find_pseudo l name = some a) : a < c := by
  induction l with
  | nil => cases h
  | cons p rest ih =>
    obtain ⟨n, v⟩ := p
    simp only [find_pseudo] at h
    by_cases hn : n = name
    · rw [if_pos hn] at h
      injection h with h2
      subst h2
      exact hwf (n, v) (List.mem_cons_self _ _)
    · rw [if_neg hn] at h
      exact ih (fun p hp => hwf p (List.mem_cons_of_mem _ hp)) h

/-- C7: on a non-table-of-contents ABI `prepare_function_symbol` returns an
identical pair; on the PPC64 ABIv1 table-of-contents ABI with no fixed
address it returns distinct pseudo code and pseudo TOC addresses, and the
machine word stored at the TOC address is the code address. -/
theorem c7_prepare_function_symbol (s : LoaderState) (name : String) (b : Option Nat)
    (hwf : loader_wf s) :
    (prepare_function_symbol false name b s).1.1
      = (prepare_function_symbol false name b s).1.2 ∧
    (prepare_function_symbol true name none s).1.1
      ≠ (prepare_function_symbol true name none s).1.2 ∧
    (prepare_function_symbol true name none s).2.mem
        (prepare_function_symbol true name none s).1.2
      = (prepare_function_symbol true name none s).1.1 := by
  refine ⟨?_, ?_, ?_⟩
  · cases b with
    | none => rfl
    | some addr => rfl
  all_goals {
    cases hfind : find_pseudo s.pseudo_addrs name with
    | some a =>
      have ha : a < externBase + s.externCounter :=
        find_pseudo_lt s.pseudo_addrs name a (externBase + s.externCounter) hwf hfind
      have h1 : (prepare_function_symbol true name none s).1.1 = a := by
        simp only [prepare_function_symbol, get_pseudo_addr, hfind, allocate,
          pack_word_extern]
      have h2 : (prepare_function_symbol true name none s).1.2
          = externBase + s.externCounter := by
        simp only [prepare_function_symbol, get_pseudo_addr, hfind, allocate,
          pack_word_extern]
      have h3 : (prepare_function_symbol true name none s).2.mem
          = Function.update s.mem (externBase + (externBase + s.externCounter - externBase)) a := by
        simp only [prepare_function_symbol, get_pseudo_addr, hfind, allocate,
          pack_word_extern]
      rw [Nat.add_sub_cancel_left] at h3
      first
      | (rw [h1, h2]; omega)
      | (rw [h3, h2, h1]; exact Function.update_same _ _ _)
    | none =>
      have h1 : (prepare_function_symbol true name none s).1.1
          = externBase + s.externCounter := by
        simp only [prepare_function_symbol, get_pseudo_addr, hfind, allocate,
          pack_word_extern]
      have h2 : (prepare_function_symbol true name none s).1.2
          = externBase + (s.externCounter + max 1 1) := by
        simp only [prepare_function_symbol, get_pseudo_addr, hfind, allocate,
          pack_word_extern]
      have h3 : (prepare_function_symbol true name none s).2.mem
          = Function.update s.mem
              (externBase + (externBase + (s.externCounter + max 1 1) - externBase))
              (externBase + s.externCounter) := by
        simp only [prepare_function_symbol, get_pseudo_addr, hfind, allocate,
          pack_word_extern]
      rw [Nat.add_sub_cancel_left] at h3
      first
      | (rw [h1, h2]; omega)
      | (rw [h3, h2, h1]; exact Function.update_same _ _ _)
  }

/-- A concrete well-formed loader state for witnesses. -/
def ldr0 : LoaderState :=
  { mem := fun _ => 0, pseudo_addrs := [], externCounter := 0 }

/-- Witness for C7 at the empty loader state. -/
theorem c7_prepare_function_symbol_witness :
    (prepare_function_symbol false "f" (some 5) ldr0).1.1
      = (prepare_function_symbol false "f" (some 5) ldr0).1.2 ∧
    (prepare_function_symbol true "f" none ldr0).1.1
      ≠ (prepare_function_symbol true "f" none ldr0).1.2 ∧
    (prepare_function_symbol true "f" none ldr0).2.mem
        (prepare_function_symbol true "f" none ldr0).1.2
      = (prepare_function_symbol true "f" none ldr0).1.1 :=
  c7_prepare_function_symbol ldr0 "f" (some 5)
    (fun p hp => absurd hp (List.not_mem_nil p))

/-- C10: on the PPC64 ABIv1 table-of-contents ABI with a fixed address
supplied, `prepare_function_symbol` returns the machine word loaded from
that address paired with the address itself, allocates nothing, writes
nothing, and leaves the loader state unchanged. -/
theorem c10_prepare_fixed_addr (s : LoaderState) (name : String) (addr : Nat) :
    (prepare_function_symbol true name (some addr) s).1.1 = s.mem addr ∧
    (prepare_function_symbol true name (some addr) s).1.2 = addr ∧
    (prepare_function_symbol true name (some addr) s).2 = s :=
  ⟨rfl, rfl, rfl⟩

end AngrLinux
